import Mathlib

/-!
Verification of the synchronization engine of `lib/deploy.js` (the `discharge`
static-site deployer).  The JavaScript source is shallowly embedded: file
contents are `List Nat` (byte sequences), paths are `String`s (with the JS
string operations the source uses re-implemented over `List Char` so that
everything kernel-reduces), the S3 client is modelled as data (a bucket
listing, a page size, an operation-failure oracle), and the MD5 fingerprint
is an abstract parameter `hash : List Nat → String` since no claim depends
on the internals of MD5.

The `diff` module required by `deploy.js` (`require("./diff")`) is not part
of the provided sources; it is modelled from the specification, section 4.4.
-/

/-! ## JS string primitives used by `deploy.js` -/

/-- `listEndsWith s t`: does the character list `s` end with `t`?
Semantics of JS `String.prototype.endsWith`. -/
def listEndsWith (s t : List Char) : Bool :=
  s.drop (s.length - t.length) == t

/-- JS `s.endsWith(t)`. -/
def jsEndsWith (s t : String) : Bool :=
  listEndsWith s.data t.data

/-- Split a character list on a separator character; JS
`String.prototype.split` with a single-character separator.  Always returns
a non-empty list of groups. -/
def splitChars (sep : Char) : List Char → List (List Char)
  | [] => [[]]
  | c :: cs =>
    if c = sep then [] :: splitChars sep cs
    else
      match splitChars sep cs with
      | [] => [[c]]
      | g :: gs => (c :: g) :: gs

/-- JS `s.split(sep)` for a one-character separator. -/
def jsSplit (sep : Char) (s : String) : List String :=
  (splitChars sep s.data).map fun l => ⟨l⟩

/-! ## Key mapper (`deploy.js` lines 101–108) -/

/-- The key mapper `targetKey` of `deploy.js`:

```js
let targetKey = (path) => {
  if (path != "index.html" && path.endsWith("/index.html") && !trailingSlashes) {
    let directoryName = path.split("/")[0]
    return directoryName
  } else {
    return path
  }
}
```
-/
def targetKey (trailingSlashes : Bool) (path : String) : String :=
  if path ≠ "index.html" ∧ jsEndsWith path "/index.html" = true ∧ trailingSlashes = false then
    (jsSplit '/' path).headD ""
  else
    path

/-! ## Local manifest (`deploy.js` lines 110–127) -/

/-- A regular file of the upload directory: its relative path, as a non-empty
list of path segments (segments contain no `/`), and its byte content. -/
structure LocalFile where
  path : List String
  content : List Nat
deriving DecidableEq, Repr

/-- Join path segments with `/`, as the `glob` library reports paths. -/
def pathString (segs : List String) : String :=
  String.intercalate "/" segs

/-- Does a path segment begin with a dot?  `glob` patterns do not match such
segments unless the non-default `dot: true` option is set. -/
def dotInitial (s : String) : Bool :=
  match s.data with
  | [] => false
  | c :: _ => c = '.'

/-- A file is visible to a default `glob` pattern when none of its path
segments begins with a dot. -/
def visibleFile (f : LocalFile) : Bool :=
  f.path.all fun seg => !(dotInitial seg)

/-- `glob.sync("**/*", { cwd: uploadDirectory, nodir: true })`
(`deploy.js` lines 110–113): every regular file all of whose path segments
are free of a leading dot (the default `dot: false` behaviour of the glob
library); `nodir: true` excludes directories, which the model (a list of
regular files) has none of. -/
def globSync (tree : List LocalFile) : List LocalFile :=
  tree.filter visibleFile

/-- One element of the `source` array of `deploy.js` (lines 117–127). -/
structure SourceEntry where
  path : String
  key : String
  md5Hash : String
deriving DecidableEq, Repr

/-- Line 120 wraps the hex digest in literal quote characters:
``let md5Hash = `"${crypto.createHash("md5").update(content).digest("hex")}"` ``. -/
def quoteHash (digest : String) : String :=
  "\"" ++ digest ++ "\""

/-- The `source` manifest of `deploy.js` (lines 117–127): one entry per
globbed file, carrying its path, mapped key and quoted fingerprint.
`hash` abstracts `crypto.createHash("md5")....digest("hex")` — a pure
function of the byte content. -/
def buildSource (hash : List Nat → String) (trailingSlashes : Bool)
    (tree : List LocalFile) : List SourceEntry :=
  (globSync tree).map fun f =>
    { path := pathString f.path
      key := targetKey trailingSlashes (pathString f.path)
      md5Hash := quoteHash (hash f.content) }

/-! ## Remote manifest (`deploy.js` lines 129–135) -/

/-- An object of the remote bucket as the listing reports it. -/
structure RemoteObj where
  Key : String
  ETag : String
deriving DecidableEq, Repr

/-- One element of the `target` array of `deploy.js` (lines 130–135). -/
structure TargetEntry where
  key : String
  md5Hash : String
deriving DecidableEq, Repr

/-- One `listObjectsV2` call returns at most one page of the objects of the
bucket (`MaxKeys`, at most 1000); further objects require follow-up calls
with a continuation token.  `deploy.js` line 129 makes exactly one call and
uses `response.Contents` — the first page only. -/
def listObjectsV2Contents (bucket : List RemoteObj) (pageSize : Nat) : List RemoteObj :=
  bucket.take pageSize

/-- The `target` manifest of `deploy.js` (lines 129–135): the contents of the
single listing call, mapped to `(key, md5Hash)` pairs. -/
def buildTarget (bucket : List RemoteObj) (pageSize : Nat) : List TargetEntry :=
  (listObjectsV2Contents bucket pageSize).map fun o =>
    { key := o.Key, md5Hash := o.ETag }

/-! ## Change-set differ -/

/-- The change set consumed by the executor loops (lines 144–179). -/
structure ChangeSet where
  add : List SourceEntry
  update : List SourceEntry
  remove : List TargetEntry
deriving DecidableEq, Repr

/-- Modelled from the spec: the change-set differ of section 4.4 — the
`diff` module `deploy.js` requires (`require("./diff")`) is not among the
provided sources.  Per the spec: each local key absent on the remote side
is an add; present with equal `contentHash`, omitted; present with a
differing `contentHash`, an update; each remote key with no corresponding
local key, a remove.  Entries are compared through the `key` and `md5Hash`
properties, matching the `locationProperty`/`contentsHashProperty`
arguments of the call at lines 137–142. -/
def diff (source : List SourceEntry) (target : List TargetEntry) : ChangeSet :=
  { add := source.filter fun s => (target.find? fun t => t.key == s.key).isNone
    update := source.filter fun s =>
      match target.find? fun t => t.key == s.key with
      | some t => !(t.md5Hash == s.md5Hash)
      | none => false
    remove := target.filter fun t => (source.find? fun s => s.key == t.key).isNone }

/-! ## Sync executor (`deploy.js` lines 144–179) -/

/-- The remote-store operations of the object API the executor can issue.
The API offers both uploads and deletions; which one each loop of
`deploy.js` issues is recorded by the embedding of the loops below. -/
inductive S3Op where
  | putObject (key : String) (body : Option (List Nat))
  | deleteObject (key : String)
deriving DecidableEq, Repr

/-- The `Key` parameter of an operation. -/
def S3Op.opKey : S3Op → String
  | .putObject k _ => k
  | .deleteObject k => k

/-- Is the operation a deletion? -/
def S3Op.isDelete : S3Op → Bool
  | .putObject _ _ => false
  | .deleteObject _ => true

/-- Which of the three executor loops an operation came from. -/
inductive OpCat where
  | add
  | update
  | remove
deriving DecidableEq, Repr

/-- One iteration of an executor loop: the category, the `task.output`
progress line emitted just before the remote call, and the remote call
itself. -/
structure PlannedOp where
  cat : OpCat
  output : String
  op : S3Op
deriving DecidableEq, Repr

/-- The sequence of (progress line, remote call) steps the three `for`
loops of `deploy.js` lines 144–179 perform, in program order: all `add`
entries, then all `update` entries, then all `remove` entries.

`readFile` models ``fs.readFileSync(`${uploadDirectory}/${change.path}`)``
as a pure function of the relative path (the constant `uploadDirectory`
prefix is absorbed into the function).  Note that the `remove` loop (lines
172–179) issues `s3.putObject({ Bucket: domain, Key: change.key })` — an
upload with no `Body` — not a deletion. -/
def plannedOps (readFile : String → List Nat) (changes : ChangeSet) : List PlannedOp :=
  (changes.add.map fun c =>
    { cat := OpCat.add
      output := "Adding " ++ c.path ++ " as " ++ c.key
      op := S3Op.putObject c.key (some (readFile c.path)) }) ++
  (changes.update.map fun c =>
    { cat := OpCat.update
      output := "Updating " ++ c.path ++ " as " ++ c.key
      op := S3Op.putObject c.key (some (readFile c.path)) }) ++
  (changes.remove.map fun c =>
    { cat := OpCat.remove
      output := "Removing " ++ c.key
      op := S3Op.putObject c.key none })

/-- Run the planned steps sequentially, as the awaited `for` loops do.
`fail` is the failure oracle of the remote store: each call either succeeds
or throws.  The result is the list of progress lines emitted, the list of
calls issued, and the step whose call threw, if any; a thrown remote error
propagates out of the task at once, so no later step runs. -/
def runPlan (fail : S3Op → Bool) : List PlannedOp → List String × List S3Op × Option PlannedOp
  | [] => ([], [], none)
  | p :: rest =>
    if fail p.op then
      ([p.output], [p.op], some p)
    else
      match runPlan fail rest with
      | (outs, ops, e) => (p.output :: outs, p.op :: ops, e)

/-- Effect of one operation on the set of keys the bucket holds: an upload
creates or overwrites the object at its key, a deletion removes the key. -/
def bucketKeysAfter (keys : List String) : S3Op → List String
  | S3Op.putObject k _ => if k ∈ keys then keys else keys ++ [k]
  | S3Op.deleteObject k => keys.filter fun k2 => !(k2 == k)

/-! ## The change-set pipeline (`deploy.js` lines 101–142) -/

/-- The inputs the synchronize task reads: the upload directory tree, the
bucket listing, the listing page size, the `trailing_slashes` flag, and —
irrelevant to the change-set stages — the cache configuration of
`context.config.cache` / `context.config.cache_control` (line 115). -/
structure SyncInput where
  tree : List LocalFile
  bucket : List RemoteObj
  pageSize : Nat
  trailingSlashes : Bool
  cacheConfig : Option String

/-- Lines 101–142 of `deploy.js` as one function: build the local and
remote manifests and diff them. -/
def computeChanges (hash : List Nat → String) (inp : SyncInput) : ChangeSet :=
  diff (buildSource hash inp.trailingSlashes inp.tree)
       (buildTarget inp.bucket inp.pageSize)

/-- A remote snapshot with the same keys and the same content hashes as a
local manifest: the mirror image of each entry. -/
def mirrorEntry (s : SourceEntry) : TargetEntry :=
  { key := s.key, md5Hash := s.md5Hash }

/-! ## Concrete data for the end-to-end scenario (spec section 8) -/

/-- Fingerprint function for the scenario: byte content `[1]` has digest
`h1`, content `[2]` digest `h2`, anything else `h0`. -/
def hashEx : List Nat → String :=
  fun b => if b = [1] then "h1" else if b = [2] then "h2" else "h0"

/-- The local tree of the scenario: `index.html` with content `[1]` and
`about/index.html` with content `[2]`. -/
def treeEx : List LocalFile :=
  [⟨["index.html"], [1]⟩, ⟨["about", "index.html"], [2]⟩]

/-- The bucket of the scenario: objects `index.html` (tag `"h1"`) and
`old.html` (tag `"h3"`), with the quote characters entity tags carry. -/
def bucketEx : List RemoteObj :=
  [⟨"index.html", "\"h1\""⟩, ⟨"old.html", "\"h3\""⟩]

/-- File contents by relative path, for the apply phase. -/
def readFileEx : String → List Nat :=
  fun p => if p = "index.html" then [1] else if p = "about/index.html" then [2] else []

/-- The change set the pipeline computes in the scenario. -/
def changesEx : ChangeSet :=
  diff (buildSource hashEx false treeEx) (buildTarget bucketEx 1000)

/-- The remote calls the executor issues in the scenario. -/
def opsEx : List S3Op :=
  (plannedOps readFileEx changesEx).map fun p => p.op

/-- The keys the bucket holds after the calls of the executor are applied. -/
def finalKeysEx : List String :=
  opsEx.foldl bucketKeysAfter (bucketEx.map fun o => o.Key)

/-! ## The failure report and witness fixtures -/

/-- The shape of the failure report of the executor: some step `i` failed, the
calls issued are exactly those up to and including the failing one, each
earlier call succeeded, the progress lines emitted are those of the issued
steps, and the last line emitted is the line of the failing step. -/
def AbortsAtFirstFailure (fail : S3Op → Bool) (plan : List PlannedOp)
    (outs : List String) (ops : List S3Op) (e : PlannedOp) : Prop :=
  ∃ i, plan[i]? = some e ∧
    ops = (plan.take (i + 1)).map (fun p => p.op) ∧
    outs = (plan.take (i + 1)).map (fun p => p.output) ∧
    fail e.op = true ∧
    (∀ j p, j < i → plan[j]? = some p → fail p.op = false) ∧
    outs.getLast? = some e.output

/-- A change set and failure oracle for the witness runs: one add entry
with key `k1` whose upload fails, and one remove entry with key `k2`. -/
def csW : ChangeSet := ⟨[⟨"p1", "k1", "h"⟩], [], [⟨"k2", "g"⟩]⟩

/-- The witness failure oracle: the call on key `k1` throws. -/
def failW : S3Op → Bool := fun op => op.opKey == "k1"

/-- The witness file reader: every file is empty. -/
def readW : String → List Nat := fun _ => []

/-! ## Helper lemmas -/

theorem splitChars_eq_takeWhile_cons (sep : Char) (l : List Char) :
    ∃ gs, splitChars sep l = (l.takeWhile fun c => !(c == sep)) :: gs := by
  induction l with
  | nil => exact ⟨[], rfl⟩
  | cons c cs ih =>
    obtain ⟨gs, hgs⟩ := ih
    by_cases h : c = sep
    · refine ⟨splitChars sep cs, ?_⟩
      simp [splitChars, h, List.takeWhile_cons]
    · refine ⟨gs, ?_⟩
      simp [splitChars, h, hgs, List.takeWhile_cons]

theorem jsSplit_headD (s : String) (sep : Char) :
    (jsSplit sep s).headD "" = ⟨s.data.takeWhile fun c => !(c == sep)⟩ := by
  obtain ⟨gs, hgs⟩ := splitChars_eq_takeWhile_cons sep s.data
  simp [jsSplit, hgs]

theorem jsEndsWith_append (a b : String) : jsEndsWith (a ++ b) b = true := by
  simp only [jsEndsWith, listEndsWith, String.data_append, List.length_append,
    Nat.add_sub_cancel, List.drop_left]
  exact beq_self_eq_true b.data

/-! ## Claims -/

/-- C8: the key mapper satisfies the four section-8 test vectors. -/
theorem C8_mapKey_vectors :
    targetKey false "index.html" = "index.html" ∧
    targetKey false "blog/index.html" = "blog" ∧
    targetKey true "blog/index.html" = "blog/index.html" ∧
    targetKey false "about.html" = "about.html" := by
  decide

/-- C1, behaviour of the code at the section-8 scenario: the change set is
the expected one, but for the `remove` entry `old.html` the executor issues
`putObject` (with no body), not a deletion; consequently the bucket still
holds the key `old.html` after apply, so it does not contain exactly
`index.html` and `about`. -/
theorem C1_remove_issues_put_not_delete :
    changesEx = ⟨[⟨"about/index.html", "about", "\"h2\""⟩], [],
                 [⟨"old.html", "\"h3\""⟩]⟩ ∧
    opsEx = [S3Op.putObject "about" (some [2]), S3Op.putObject "old.html" none] ∧
    opsEx.all (fun op => !(op.isDelete)) = true ∧
    finalKeysEx = ["index.html", "old.html", "about"] ∧
    "old.html" ∈ finalKeysEx := by
  decide

/-- C2, counterexample: for the nested path `a/b/index.html` with trailing
slashes disabled the key mapper returns the first path segment `a`, not the
parent directory path `a/b` the claim states. -/
theorem C2_counterexample :
    targetKey false "a/b/index.html" = "a" ∧
    targetKey false "a/b/index.html" ≠ "a/b" := by
  decide

/-- C2, amended: when trailing slashes are disabled and the path ends with
`/index.html` without being exactly `index.html`, the key mapper returns
the first `/`-separated segment of the path (the text before the first
slash) — not the full parent directory path; when trailing slashes are
enabled the key is the path unchanged. -/
theorem C2_targetKey_amended :
    (∀ p : String, p ≠ "index.html" → jsEndsWith p "/index.html" = true →
      targetKey false p = ⟨p.data.takeWhile fun c => !(c == '/')⟩) ∧
    (∀ p : String, targetKey true p = p) := by
  constructor
  · intro p h1 h2
    rw [targetKey, if_pos ⟨h1, h2, rfl⟩, jsSplit_headD]
  · intro p
    rw [targetKey, if_neg]
    rintro ⟨-, -, h⟩
    exact absurd h (by decide)

/-- C2, witness: the amended statement applied at `a/b/index.html`. -/
theorem C2_witness :
    targetKey false "a/b/index.html" =
      ⟨("a/b/index.html" : String).data.takeWhile fun c => !(c == '/')⟩ ∧
    targetKey true "a/b/index.html" = "a/b/index.html" :=
  ⟨C2_targetKey_amended.1 "a/b/index.html" (by decide) (by decide),
   C2_targetKey_amended.2 "a/b/index.html"⟩

/-- C3, counterexample: with a bucket of two objects and a listing page
size of one, the remote manifest built from the single `listObjectsV2`
call holds one entry, not one entry per remote object — the object `b` of
the second page is missing. -/
theorem C3_counterexample :
    buildTarget [⟨"a", "h1"⟩, ⟨"b", "h2"⟩] 1 = [⟨"a", "h1"⟩] ∧
    (buildTarget [⟨"a", "h1"⟩, ⟨"b", "h2"⟩] 1).length ≠
      ([⟨"a", "h1"⟩, ⟨"b", "h2"⟩] : List RemoteObj).length ∧
    ∀ t ∈ buildTarget [⟨"a", "h1"⟩, ⟨"b", "h2"⟩] 1, t.key ≠ "b" := by
  refine ⟨by decide, by decide, ?_⟩
  intro t ht
  simp [buildTarget, listObjectsV2Contents] at ht
  simp [ht]

/-- C3, amended: the remote manifest is built from a single, unpaginated
listing call and flattens only the first page; it has one entry per remote
object exactly when the whole bucket fits in one listing page. -/
theorem C3_buildTarget_amended (bucket : List RemoteObj) (pageSize : Nat)
    (h : bucket.length ≤ pageSize) :
    buildTarget bucket pageSize = bucket.map (fun o => ⟨o.Key, o.ETag⟩) ∧
    (buildTarget bucket pageSize).length = bucket.length := by
  have htake : listObjectsV2Contents bucket pageSize = bucket :=
    List.take_of_length_le h
  constructor
  · rw [buildTarget, htake]
  · rw [buildTarget, htake, List.length_map]

/-- C3, witness: the amended statement at a two-object bucket and the
default page size of 1000. -/
theorem C3_witness :
    buildTarget [⟨"a", "h1"⟩, ⟨"b", "h2"⟩] 1000 =
      ([⟨"a", "h1"⟩, ⟨"b", "h2"⟩] : List RemoteObj).map (fun o => ⟨o.Key, o.ETag⟩) ∧
    (buildTarget [⟨"a", "h1"⟩, ⟨"b", "h2"⟩] 1000).length =
      ([⟨"a", "h1"⟩, ⟨"b", "h2"⟩] : List RemoteObj).length :=
  C3_buildTarget_amended [⟨"a", "h1"⟩, ⟨"b", "h2"⟩] 1000 (by decide)

/-- C7, counterexample: a regular dotfile — here the single file `.hidden`
— is omitted from the local manifest, because the default glob pattern
does not match names beginning with a dot; so the manifest does not carry
one entry per regular file. -/
theorem C7_counterexample :
    buildSource hashEx false [⟨[".hidden"], [7]⟩] = [] ∧
    ([⟨[".hidden"], [7]⟩] : List LocalFile).length = 1 := by
  decide

/-- C7, amended: the local manifest enumerates exactly the regular files
none of whose path segments begins with a dot (the glob default excludes
hidden dotfiles), and carries one entry per such file, with its mapped key
and the quoted fingerprint of its bytes. -/
theorem C7_buildSource_amended (hash : List Nat → String) (trailing : Bool)
    (tree : List LocalFile) :
    (buildSource hash trailing tree).length = (tree.filter visibleFile).length ∧
    (∀ f, f ∈ tree → visibleFile f = true →
      ({ path := pathString f.path
         key := targetKey trailing (pathString f.path)
         md5Hash := quoteHash (hash f.content) } : SourceEntry) ∈
        buildSource hash trailing tree) ∧
    (∀ e, e ∈ buildSource hash trailing tree →
      ∃ f, f ∈ tree ∧ visibleFile f = true ∧
        e = { path := pathString f.path
              key := targetKey trailing (pathString f.path)
              md5Hash := quoteHash (hash f.content) }) := by
  refine ⟨?_, ?_, ?_⟩
  · rw [buildSource, List.length_map, globSync]
  · intro f hf hv
    rw [buildSource]
    exact List.mem_map_of_mem _ (List.mem_filter.mpr ⟨hf, hv⟩)
  · intro e he
    rw [buildSource] at he
    obtain ⟨f, hf, rfl⟩ := List.mem_map.mp he
    obtain ⟨hmem, hvis⟩ := List.mem_filter.mp hf
    exact ⟨f, hmem, hvis, rfl⟩

/-- C7, witness: the amended statement at a tree holding a visible file and
a hidden one; the entry of the visible file is present. -/
theorem C7_witness :
    (buildSource hashEx false [⟨["index.html"], [1]⟩, ⟨[".hidden"], [7]⟩]).length =
      (([⟨["index.html"], [1]⟩, ⟨[".hidden"], [7]⟩] : List LocalFile).filter visibleFile).length ∧
    ({ path := pathString ["index.html"]
       key := targetKey false (pathString ["index.html"])
       md5Hash := quoteHash (hashEx [1]) } : SourceEntry) ∈
      buildSource hashEx false [⟨["index.html"], [1]⟩, ⟨[".hidden"], [7]⟩] ∧
    (∃ f, f ∈ ([⟨["index.html"], [1]⟩, ⟨[".hidden"], [7]⟩] : List LocalFile) ∧
      visibleFile f = true ∧
      (⟨"index.html", "index.html", "\"h1\""⟩ : SourceEntry) =
        { path := pathString f.path
          key := targetKey false (pathString f.path)
          md5Hash := quoteHash (hashEx f.content) }) :=
  ⟨(C7_buildSource_amended hashEx false _).1,
   (C7_buildSource_amended hashEx false _).2.1 ⟨["index.html"], [1]⟩ (by decide) (by decide),
   (C7_buildSource_amended hashEx false _).2.2 ⟨"index.html", "index.html", "\"h1\""⟩
     (by decide)⟩

/-- C4: classification of the differ — each local entry whose key is absent
remotely is an add; one matched by the first remote entry of its key with a
differing hash is an update (an equal hash leaves it out of the change
set); each remote entry whose key has no local counterpart is a remove —
together with the four table-driven vectors of section 8. -/
theorem C4_diff_classification :
    (∀ (src : List SourceEntry) (tgt : List TargetEntry) (s : SourceEntry),
      s ∈ (diff src tgt).add ↔ s ∈ src ∧ ∀ t ∈ tgt, t.key ≠ s.key) ∧
    (∀ (src : List SourceEntry) (tgt : List TargetEntry) (s : SourceEntry),
      s ∈ (diff src tgt).update ↔
        s ∈ src ∧ ∃ t, tgt.find? (fun t2 => t2.key == s.key) = some t ∧
          t.md5Hash ≠ s.md5Hash) ∧
    (∀ (src : List SourceEntry) (tgt : List TargetEntry) (t : TargetEntry),
      t ∈ (diff src tgt).remove ↔ t ∈ tgt ∧ ∀ s ∈ src, s.key ≠ t.key) ∧
    diff [⟨"a", "a", "h1"⟩] [] = ⟨[⟨"a", "a", "h1"⟩], [], []⟩ ∧
    diff [⟨"a", "a", "h1"⟩] [⟨"a", "h1"⟩] = ⟨[], [], []⟩ ∧
    diff [⟨"a", "a", "h2"⟩] [⟨"a", "h1"⟩] = ⟨[], [⟨"a", "a", "h2"⟩], []⟩ ∧
    diff [] [⟨"a", "h1"⟩] = ⟨[], [], [⟨"a", "h1"⟩]⟩ := by
  refine ⟨?_, ?_, ?_, by decide, by decide, by decide, by decide⟩
  · intro src tgt s
    simp [diff, List.mem_filter, Option.isNone_iff_eq_none, List.find?_eq_none]
  · intro src tgt s
    simp only [diff, List.mem_filter]
    refine and_congr_right fun _ => ?_
    rcases h : tgt.find? (fun t2 => t2.key == s.key) with - | t
    · simp [h]
    · simp [h]
  · intro src tgt t
    simp [diff, List.mem_filter, Option.isNone_iff_eq_none, List.find?_eq_none]

/-- C4, witness: the classification applied at the first section-8 vector. -/
theorem C4_witness :
    diff [⟨"a", "a", "h1"⟩] [] = ⟨[⟨"a", "a", "h1"⟩], [], []⟩ :=
  C4_diff_classification.2.2.2.1

/-- On a source list with pairwise-distinct keys, looking up the key of a
member in the mirrored remote snapshot finds exactly the mirror of that member. -/
theorem find?_mirror_of_nodup {src : List SourceEntry} {s : SourceEntry}
    (hs : s ∈ src) (hnd : (src.map fun x => x.key).Nodup) :
    (src.map mirrorEntry).find? (fun t => t.key == s.key) = some (mirrorEntry s) := by
  induction src with
  | nil => cases hs
  | cons h tl ih =>
    rw [List.map_cons, List.nodup_cons] at hnd
    rcases List.mem_cons.mp hs with rfl | hmem
    · rw [List.map_cons, List.find?_cons_of_pos]
      simp [mirrorEntry]
    · have hkey : h.key ≠ s.key := by
        intro he
        exact hnd.1 (he ▸ List.mem_map_of_mem _ hmem)
      rw [List.map_cons, List.find?_cons_of_neg, ih hmem hnd.2]
      simp [mirrorEntry, hkey]

/-- C5: diffing a local manifest (with the distinct target keys section 3
makes an invariant) against the identical remote snapshot — same keys, same
content hashes — yields an empty change set. -/
theorem C5_diff_self_empty (hash : List Nat → String) (trailing : Bool)
    (tree : List LocalFile)
    (hnd : ((buildSource hash trailing tree).map fun s => s.key).Nodup) :
    diff (buildSource hash trailing tree)
         ((buildSource hash trailing tree).map mirrorEntry) = ⟨[], [], []⟩ := by
  set src := buildSource hash trailing tree with hsrc
  have h1 : src.filter
      (fun s => ((src.map mirrorEntry).find? fun t => t.key == s.key).isNone) = [] := by
    rw [List.filter_eq_nil_iff]
    intro s hs
    simp [find?_mirror_of_nodup hs hnd]
  have h2 : src.filter (fun s =>
      match (src.map mirrorEntry).find? fun t => t.key == s.key with
      | some t => !(t.md5Hash == s.md5Hash)
      | none => false) = [] := by
    rw [List.filter_eq_nil_iff]
    intro s hs
    rw [find?_mirror_of_nodup hs hnd]
    simp [mirrorEntry]
  have h3 : (src.map mirrorEntry).filter
      (fun t => (src.find? fun s => s.key == t.key).isNone) = [] := by
    rw [List.filter_eq_nil_iff]
    intro t ht
    obtain ⟨s, hs, rfl⟩ := List.mem_map.mp ht
    simp only [Bool.not_eq_true, Option.isNone_eq_false_iff, List.find?_isSome,
      beq_iff_eq]
    exact ⟨s, hs, rfl⟩
  simp only [diff, h1, h2, h3]

/-- C5, witness: the idempotence statement at the section-8 tree, whose
manifest keys `index.html` and `about` are distinct. -/
theorem C5_witness :
    (((buildSource hashEx false treeEx).map fun s => s.key).Nodup) ∧
    diff (buildSource hashEx false treeEx)
         ((buildSource hashEx false treeEx).map mirrorEntry) = ⟨[], [], []⟩ :=
  ⟨by decide, C5_diff_self_empty hashEx false treeEx (by decide)⟩

theorem runPlan_abort (fail : S3Op → Bool) :
    ∀ (plan : List PlannedOp) (outs : List String) (ops : List S3Op) (e : PlannedOp),
      runPlan fail plan = (outs, ops, some e) →
      AbortsAtFirstFailure fail plan outs ops e := by
  intro plan
  induction plan with
  | nil =>
    intro outs ops e h
    simp [runPlan] at h
  | cons p rest ih =>
    intro outs ops e h
    rw [runPlan] at h
    by_cases hf : fail p.op
    · rw [if_pos hf] at h
      simp only [Prod.mk.injEq] at h
      obtain ⟨h1, h2, h3⟩ := h
      obtain rfl := Option.some.inj h3
      refine ⟨0, by simp, h2.symm, h1.symm, hf, ?_, ?_⟩
      · intro j q hj
        omega
      · rw [← h1]
        rfl
    · rw [if_neg hf] at h
      rcases hr : runPlan fail rest with ⟨o2, op2, e2⟩
      rw [hr] at h
      simp only [Prod.mk.injEq] at h
      obtain ⟨h1, h2, h3⟩ := h
      subst h3
      obtain ⟨i, hi, hops2, houts2, hfe, hall, hlast⟩ := ih o2 op2 e hr
      refine ⟨i + 1, ?_, ?_, ?_, hfe, ?_, ?_⟩
      · rw [List.getElem?_cons_succ]
        exact hi
      · rw [← h2, List.take_succ_cons, List.map_cons, hops2]
      · rw [← h1, List.take_succ_cons, List.map_cons, houts2]
      · intro j q hj hq
        cases j with
        | zero =>
          rw [List.getElem?_cons_zero] at hq
          obtain rfl := Option.some.inj hq
          exact Bool.not_eq_true _ ▸ (by simpa using hf)
        | succ j2 =>
          rw [List.getElem?_cons_succ] at hq
          exact hall j2 q (by omega) hq
      · rw [← h1]
        cases o2 with
        | nil => cases hlast
        | cons x xs =>
          rw [List.getLast?_cons_cons]
          exact hlast

/-- The progress line of each planned step ends with the key of the remote call
it precedes: the executor identifies the key in flight before each call. -/
theorem plannedOps_output_endsWith_key (readFile : String → List Nat)
    (changes : ChangeSet) :
    ∀ p ∈ plannedOps readFile changes, jsEndsWith p.output p.op.opKey = true := by
  intro p hp
  rw [plannedOps] at hp
  rcases List.mem_append.mp hp with hp1 | hr
  · rcases List.mem_append.mp hp1 with ha | hu
    · obtain ⟨c, -, rfl⟩ := List.mem_map.mp ha
      simpa [S3Op.opKey] using jsEndsWith_append ("Adding " ++ c.path ++ " as ") c.key
    · obtain ⟨c, -, rfl⟩ := List.mem_map.mp hu
      simpa [S3Op.opKey] using jsEndsWith_append ("Updating " ++ c.path ++ " as ") c.key
  · obtain ⟨c, -, rfl⟩ := List.mem_map.mp hr
    simpa [S3Op.opKey] using jsEndsWith_append "Removing " c.key

/-- C6: the apply loops run their remote calls sequentially under `await`,
so the first failing call aborts the run — the calls issued are exactly
those up to and including the failing one, no queued operation after it is
issued — and the failure is identified: the failing step carries the key of
its call, and the last progress line emitted (set just before the call)
names that key. -/
theorem C6_abort_on_first_failure (fail : S3Op → Bool)
    (readFile : String → List Nat) (changes : ChangeSet)
    (outs : List String) (ops : List S3Op) (e : PlannedOp)
    (h : runPlan fail (plannedOps readFile changes) = (outs, ops, some e)) :
    AbortsAtFirstFailure fail (plannedOps readFile changes) outs ops e ∧
    jsEndsWith e.output e.op.opKey = true := by
  refine ⟨runPlan_abort fail _ outs ops e h, ?_⟩
  obtain ⟨i, hi, -⟩ := runPlan_abort fail _ outs ops e h
  exact plannedOps_output_endsWith_key readFile changes e (List.getElem?_mem hi)

/-- C6, witness: in the concrete run the upload of `k1` fails, only that
call is issued, and the single progress line names `k1`. -/
theorem C6_witness :
    AbortsAtFirstFailure failW (plannedOps readW csW)
      ["Adding p1 as k1"] [S3Op.putObject "k1" (some [])]
      ⟨OpCat.add, "Adding p1 as k1", S3Op.putObject "k1" (some [])⟩ ∧
    jsEndsWith (PlannedOp.mk OpCat.add "Adding p1 as k1"
        (S3Op.putObject "k1" (some []))).output
      (PlannedOp.mk OpCat.add "Adding p1 as k1"
        (S3Op.putObject "k1" (some []))).op.opKey = true :=
  C6_abort_on_first_failure failW readW csW _ _ _ (by decide)

/-- The planned step at an index is a remove step exactly when the index is
past all the add and update steps: the three loops run in program order. -/
theorem plannedOps_cat_iff (readFile : String → List Nat) (changes : ChangeSet)
    (i : Nat) (p : PlannedOp)
    (hp : (plannedOps readFile changes)[i]? = some p) :
    (p.cat = OpCat.remove ↔ changes.add.length + changes.update.length ≤ i) := by
  rw [plannedOps, List.append_assoc] at hp
  by_cases h1 : i < changes.add.length
  · rw [List.getElem?_append_left (by simpa using h1)] at hp
    obtain ⟨c, -, rfl⟩ := List.mem_map.mp (List.getElem?_mem hp)
    simp only [show OpCat.add ≠ OpCat.remove by decide, false_iff]
    omega
  · rw [List.getElem?_append_right (by simpa using h1)] at hp
    simp only [List.length_map] at hp
    by_cases h2 : i - changes.add.length < changes.update.length
    · rw [List.getElem?_append_left (by simpa using h2)] at hp
      obtain ⟨c, -, rfl⟩ := List.mem_map.mp (List.getElem?_mem hp)
      simp only [show OpCat.update ≠ OpCat.remove by decide, false_iff]
      omega
    · rw [List.getElem?_append_right (by simpa using h2)] at hp
      obtain ⟨c, -, rfl⟩ := List.mem_map.mp (List.getElem?_mem hp)
      simp only [true_iff]
      omega

/-- C9: every remove step of a run comes after every add and every update
step — in particular a removal of a key is never executed before an add or
update targeting that key — and the differ gives each key to at most one of
the three categories. -/
theorem C9_remove_order_and_exclusivity :
    (∀ (readFile : String → List Nat) (changes : ChangeSet) (i j : Nat)
        (p q : PlannedOp),
      (plannedOps readFile changes)[i]? = some p →
      (plannedOps readFile changes)[j]? = some q →
      p.cat = OpCat.remove → q.cat ≠ OpCat.remove → j < i) ∧
    (∀ (src : List SourceEntry) (tgt : List TargetEntry) (k : String),
      (k ∈ (diff src tgt).add.map (fun s => s.key) →
        k ∉ (diff src tgt).update.map (fun s => s.key) ∧
        k ∉ (diff src tgt).remove.map (fun t => t.key)) ∧
      (k ∈ (diff src tgt).update.map (fun s => s.key) →
        k ∉ (diff src tgt).remove.map (fun t => t.key))) := by
  constructor
  · intro readFile changes i j p q hi hj hpr hqr
    have h1 := (plannedOps_cat_iff readFile changes i p hi).mp hpr
    have h2 : ¬ (changes.add.length + changes.update.length ≤ j) :=
      fun h => hqr ((plannedOps_cat_iff readFile changes j q hj).mpr h)
    omega
  · intro src tgt k
    constructor
    · intro hk
      obtain ⟨s, hsmem, hsk⟩ := List.mem_map.mp hk
      obtain ⟨hsrc, hnone⟩ := List.mem_filter.mp hsmem
      constructor
      · intro hk2
        obtain ⟨s2, hs2mem, hs2k⟩ := List.mem_map.mp hk2
        obtain ⟨-, hupd⟩ := List.mem_filter.mp hs2mem
        have hkey : s2.key = s.key := by rw [hs2k, hsk]
        rw [hkey] at hupd
        rcases hfind : tgt.find? fun t => t.key == s.key with - | t
        · rw [hfind] at hupd
          cases hupd
        · rw [hfind] at hnone
          cases hnone
      · intro hk2
        obtain ⟨t, htmem, htk⟩ := List.mem_map.mp hk2
        obtain ⟨-, hrem⟩ := List.mem_filter.mp htmem
        rw [Option.isNone_iff_eq_none, List.find?_eq_none] at hrem
        exact hrem s hsrc (by rw [beq_iff_eq, hsk, htk])
    · intro hk
      obtain ⟨s, hsmem, hsk⟩ := List.mem_map.mp hk
      obtain ⟨hsrc, -⟩ := List.mem_filter.mp hsmem
      intro hk2
      obtain ⟨t, htmem, htk⟩ := List.mem_map.mp hk2
      obtain ⟨-, hrem⟩ := List.mem_filter.mp htmem
      rw [Option.isNone_iff_eq_none, List.find?_eq_none] at hrem
      exact hrem s hsrc (by rw [beq_iff_eq, hsk, htk])

/-- C9, witness: in the concrete run of `csW` the remove step sits at index
1, after the add step at index 0; and the key `k1` the differ classifies as
an add is in neither the update nor the remove category. -/
theorem C9_witness :
    (0 : Nat) < 1 ∧
    ("k1" ∉ (diff [⟨"p1", "k1", "h"⟩] [⟨"k2", "g"⟩]).update.map (fun s => s.key) ∧
      "k1" ∉ (diff [⟨"p1", "k1", "h"⟩] [⟨"k2", "g"⟩]).remove.map (fun t => t.key)) :=
  ⟨C9_remove_order_and_exclusivity.1 readW csW 1 0
      ⟨OpCat.remove, "Removing k2", S3Op.putObject "k2" none⟩
      ⟨OpCat.add, "Adding p1 as k1", S3Op.putObject "k1" (some [])⟩
      (by decide) (by decide) (by decide) (by decide),
    (C9_remove_order_and_exclusivity.2 [⟨"p1", "k1", "h"⟩] [⟨"k2", "g"⟩] "k1").1
      (by decide)⟩

/-- C10: the change set is a pure function of the local tree, the bucket
listing, the page size and the trailing-slash flag — two inputs agreeing on
those (the cache configuration, which the change-set stages never read, may
differ) produce identical change sets, so repeated runs over fixed inputs
agree. -/
theorem C10_changes_deterministic (hash : List Nat → String) (i1 i2 : SyncInput)
    (ht : i1.tree = i2.tree) (hb : i1.bucket = i2.bucket)
    (hp : i1.pageSize = i2.pageSize) (hs : i1.trailingSlashes = i2.trailingSlashes) :
    computeChanges hash i1 = computeChanges hash i2 := by
  rw [computeChanges, computeChanges, ht, hb, hp, hs]

/-- C10, witness: the scenario inputs with two different cache
configurations give the same change set. -/
theorem C10_witness :
    computeChanges hashEx ⟨treeEx, bucketEx, 1000, false, some "max-age=60"⟩ =
      computeChanges hashEx ⟨treeEx, bucketEx, 1000, false, none⟩ :=
  C10_changes_deterministic hashEx _ _ rfl rfl rfl rfl
